import Mathlib

/-!
# jarvis-runtime: ledger, tool gateway scope check and orchestrator

A shallow embedding of `internal/ledger/ledger.go`, `internal/tools/tools.go`
and `internal/orchestrator/orchestrator.go`.

Conventions of the embedding.

* A Go `string` is a Lean `String` (so only valid UTF-8 strings are covered), a
  Go `[]byte` is a `List UInt8`.
* A Go `error` result is an `Option String` (`none` is `nil`); a `(T, error)`
  result is an `Except String T` or a pair, whichever the Go code needs.
* The Go standard library functions the code calls are not part of the
  repository.  Those whose behaviour is fixed by a few lines (hex encoding, the
  line scanner, `strings.HasPrefix`) are written out; the others
  (`encoding/json`, `crypto/sha256`, `filepath.Abs`) are the fields of `Lib`,
  and every theorem holds for all of them.
* What the operating system answers (clock, failures of open and write, results
  of child processes) is an explicit argument of each operation.
-/

namespace Jarvis

abbrev Bytes := List UInt8

deriving instance DecidableEq for Except

/-! ## internal/ledger -/

/-- The struct `ledger.Event`; `ExitCode` is the Go `*int`. -/
structure Event where
  Timestamp : String := ""
  TaskID : String := ""
  WorkspaceID : String := ""
  Actor : String := ""
  EventType : String := ""
  Message : String := ""
  ToolName : String := ""
  ArgsHash : String := ""
  StdoutHash : String := ""
  StderrHash : String := ""
  ExitCode : Option Int := none
  DiffHash : String := ""
  PolicyVersion : String := ""
  PrevEventHash : String := ""
  EventHash : String := ""
deriving DecidableEq

/-- The struct `ledger.Ledger`. -/
structure Ledger where
  path : String
  prevEventHash : String
deriving DecidableEq

/-- The Go array type `[32]byte` returned by `sha256.Sum256`. -/
abbrev Array32 := { l : Bytes // l.length = 32 }

/-- Standard library functions used by the code and not written out here. -/
structure Lib where
  /-- Stands for `json.Marshal` applied to an `Event`. -/
  jsonMarshal : Event → Except String Bytes
  /-- Stands for `json.Unmarshal` of a line into a zero `Event`. -/
  jsonUnmarshal : Bytes → Except String Event
  /-- Stands for `sha256.Sum256`. -/
  sha256Sum : Bytes → Array32
  /-- Stands for `filepath.Abs`. -/
  filepathAbs : String → Except String String

/-- The table `hextable` of `encoding/hex`. -/
def hextable : List Char :=
  ['0', '1', '2', '3', '4', '5', '6', '7', '8', '9', 'a', 'b', 'c', 'd', 'e', 'f']

/-- Two hexadecimal digits of one byte: `hextable[v>>4]`, `hextable[v&0x0f]`. -/
def hexByte (v : UInt8) : List Char :=
  [hextable.getD (v.toNat / 16) '0', hextable.getD (v.toNat % 16) '0']

/-- The function `hex.EncodeToString`. -/
def hexEncodeToString (src : Bytes) : String :=
  String.mk (src.flatMap hexByte)

/-- The conversion `[]byte(s)`. -/
def bytesOfString (s : String) : Bytes :=
  s.data.flatMap String.utf8EncodeChar

/-- The constant `bufio.MaxScanTokenSize`. -/
def maxScanTokenSize : Nat := 64 * 1024

/-- The helper `dropCR` of `bufio.ScanLines`: a trailing carriage return is removed. -/
def dropCR (data : Bytes) : Bytes :=
  if data.getLast? = some 13 then data.dropLast else data

/-- The loop `for sc.Scan() { lastLine = copy(sc.Bytes()) }` followed by `sc.Err()`,
for a `bufio.Scanner` with the default split function `ScanLines` and the default
buffer.  `cur` holds the bytes of the line being read, in reverse; `last` is
`lastLine`.  A line that does not fit the buffer makes the scanner stop with
`ErrTooLong`. -/
def scanLoop (cur : Bytes) (last : Bytes) : Bytes → Except String Bytes
  | [] =>
    if maxScanTokenSize ≤ cur.length then .error "bufio.Scanner: token too long"
    else if cur = [] then .ok last
    else .ok (dropCR cur.reverse)
  | b :: rest =>
    if b = 10 then
      if maxScanTokenSize ≤ cur.length then .error "bufio.Scanner: token too long"
      else scanLoop [] (dropCR cur.reverse) rest
    else scanLoop (b :: cur) last rest

/-- The file system as far as the ledger is concerned: the content of each
regular file, `none` where there is no file. -/
abbrev Files := String → Option Bytes

/-- What the operating system answers while a ledger is opened. -/
structure OpenEnv where
  /-- The error of `os.MkdirAll`. -/
  mkdirErr : Option String := none
  /-- An error of `os.Open` on a file that exists. -/
  openErr : Option String := none
  /-- A read error met by the scanner. -/
  readErr : Option String := none

/-- The method `(*Ledger).loadPrevHash`: the ledger after the call and the error. -/
def loadPrevHash (lib : Lib) (os : OpenEnv) (fs : Files) (l : Ledger) :
    Ledger × Option String :=
  match os.openErr, fs l.path with
  | some _, _ => (l, none)
  | none, none => (l, none)
  | none, some data =>
    match os.readErr with
    | some err => (l, some err)
    | none =>
      match scanLoop [] [] data with
      | .error err => (l, some err)
      | .ok lastLine =>
        if lastLine.length = 0 then (l, none)
        else
          match lib.jsonUnmarshal lastLine with
          | .error err => (l, some ("ledger last line parse failed: " ++ err))
          | .ok e => ({ l with prevEventHash := e.EventHash }, none)

/-- The function `ledger.New`; the error of `loadPrevHash` is discarded. -/
def New (lib : Lib) (os : OpenEnv) (fs : Files) (path : String) : Except String Ledger :=
  match os.mkdirErr with
  | some err => .error err
  | none => .ok (loadPrevHash lib os fs { path := path, prevEventHash := "" }).1

/-- What the operating system answers during one `Append`. -/
structure AppendEnv where
  /-- The value of `time.Now().UTC().Format(time.RFC3339Nano)`. -/
  now : String := ""
  /-- The error of `os.OpenFile`. -/
  openErr : Option String := none
  /-- A failure of `WriteString` or `Flush`, after that many bytes reached the file. -/
  writeErr : Option (Nat × String) := none

/-- Bytes added at the end of a file, which is created when absent. -/
def writeAtEnd (fs : Files) (path : String) (data : Bytes) : Files :=
  fun p => if p = path then some ((fs p).getD [] ++ data) else fs p

/-- The method `(*Ledger).Append`: the files and the ledger after the call, and
the error. -/
def Append (lib : Lib) (os : AppendEnv) (fs : Files) (l : Ledger) (e : Event) :
    Files × Ledger × Option String :=
  let e1 := { e with Timestamp := os.now, PrevEventHash := l.prevEventHash }
  let tmp := { e1 with EventHash := "" }
  match lib.jsonMarshal tmp with
  | .error err => (fs, l, some err)
  | .ok b =>
    let e2 := { e1 with EventHash := hexEncodeToString (lib.sha256Sum b).val }
    match os.openErr with
    | some err => (fs, l, some err)
    | none =>
      let fs1 := writeAtEnd fs l.path []
      match lib.jsonMarshal e2 with
      | .error err => (fs1, l, some err)
      | .ok line =>
        match os.writeErr with
        | some (n, err) => (writeAtEnd fs1 l.path ((line ++ [10]).take n), l, some err)
        | none => (writeAtEnd fs1 l.path (line ++ [10]), { l with prevEventHash := e2.EventHash }, none)

/-! ## internal/tools -/

/-- The struct `tools.Workspace`. -/
structure Workspace where
  ID : String
  RepoRoot : String
  AllowedRoot : String
deriving DecidableEq

/-- The function `strings.HasPrefix`. -/
def HasPrefix (s pre : String) : Bool :=
  pre.data.isPrefixOf s.data

/-- The constant `os.PathSeparator` (Unix). -/
def PathSeparator : Char := '/'

/-- The function `tools.ensureInScope`. -/
def ensureInScope (lib : Lib) (ws : Workspace) (p : String) : Option String :=
  match lib.filepathAbs p with
  | .error err => some err
  | .ok abs =>
    if (!HasPrefix abs (ws.AllowedRoot ++ String.singleton PathSeparator)
        && abs != ws.AllowedRoot) then
      some ("path out of scope: " ++ abs)
    else none

/-- The struct `tools.Result`. -/
structure Result where
  Stdout : Bytes := []
  Stderr : Bytes := []
  ExitCode : Int := 0
deriving DecidableEq

/-- The error of `cmd.Run()`: an `*exec.ExitError` with its `ExitCode()`, or
any other error. -/
inductive RunErr where
  | exitError (code : Int)
  | other (msg : String)
deriving DecidableEq

/-- What one child process did: the bytes it wrote and the error of `cmd.Run()`. -/
structure ProcEnv where
  stdout : Bytes := []
  stderr : Bytes := []
  err : Option RunErr := none

/-- The text of a `RunErr`, the Go `err.Error()`. -/
def RunErr.text : RunErr → String
  | .exitError code => "exit status " ++ toString code
  | .other msg => msg

/-- The function `tools.runCmd`, from `err := cmd.Run()` on. -/
def runCmd (proc : ProcEnv) : Result × Option String :=
  let exitCode : Int :=
    match proc.err with
    | none => 0
    | some (.exitError code) => code
    | some (.other _) => 127
  ({ Stdout := proc.stdout, Stderr := proc.stderr, ExitCode := exitCode },
    proc.err.map RunErr.text)

/-- The function `tools.GitStatus`. -/
def GitStatus (lib : Lib) (proc : ProcEnv) (ws : Workspace) : Result × Option String :=
  match ensureInScope lib ws ws.RepoRoot with
  | some err => ({}, some err)
  | none => runCmd proc

/-- One observable step of a run, in the order of execution. -/
inductive Step where
  /-- A call `led.Append(e)` and the error it returned. -/
  | append (e : Event) (err : Option String)
  /-- A call of a function of the tool gateway (package `tools`). -/
  | gateway (tool : String)
  /-- Another interaction with the operating system. -/
  | sys (what : String)
deriving DecidableEq

/-- What the operating system answers inside `ensureMinimalGoFiberProject`. -/
structure ProjectEnv where
  /-- Whether `os.Stat` of `go.mod` succeeds. -/
  goModPresent : Bool := true
  mkdirErr : Option String := none
  writeModErr : Option String := none
  writeMainErr : Option String := none
  writeTestErr : Option String := none
  /-- The failures of the three shell commands, already formatted as `err: output`. -/
  shellAddErr : Option String := none
  shellTidyErr : Option String := none
  shellCommitErr : Option String := none

/-- Everything outside the program that one `Run` depends on. -/
structure RunEnv where
  /-- The random identifier made by `task.New`. -/
  taskID : String := ""
  /-- The constant `policy.Version`; package `internal/policy` is not among the sources. -/
  policyVersion : String := ""
  /-- The answers to `ledger.New`. -/
  openEnv : OpenEnv := {}
  /-- The answers to the k-th call of `Append`, counted from 0. -/
  appendEnv : Nat → AppendEnv := fun _ => {}
  /-- The error of `os.MkdirAll(ws.RepoRoot)`. -/
  mkdirRepoErr : Option String := none
  /-- The two answers of `isGitRepo`. -/
  isGitRepo1 : Bool := true
  isGitRepo2 : Bool := true
  /-- The failure of the shell command `git init`, formatted as `err: output`. -/
  gitInitErr : Option String := none
  project : ProjectEnv := {}
  /-- The child process of `GitApplyPatch`. -/
  applyProc : ProcEnv := {}
  /-- The content of `README.md`, `none` when `os.ReadFile` fails. -/
  readme : Option String := none
  /-- The child process of `GitDiff`. -/
  diffProc : ProcEnv := {}
  /-- The child process of `RunTestsScriptOnly`. -/
  testProc : ProcEnv := {}
  /-- Stands for `strings.TrimSpace(string(b))`. -/
  trimSpace : Bytes → String := fun _ => ""

/-- The state threaded through a run: the files, the ledger object, the number
of `Append` calls made, and the steps so far. -/
structure St where
  fs : Files
  led : Ledger
  calls : Nat
  trace : List Step

/-- One call `led.Append(e)` inside a run. -/
def St.append (lib : Lib) (env : RunEnv) (s : St) (e : Event) : St × Option String :=
  let r := Append lib (env.appendEnv s.calls) s.fs s.led e
  ({ fs := r.1, led := r.2.1, calls := s.calls + 1,
     trace := s.trace ++ [Step.append e r.2.2] }, r.2.2)

/-- A JSON string without escapes, as `json.Marshal` writes a string that needs none. -/
def demoQuote (s : String) : String :=
  "\"" ++ s ++ "\""

/-- The members of the JSON object for an event that come before `event_hash`,
in the order of the struct fields, the `omitempty` ones left out when empty. -/
def demoMembers (e : Event) : List String :=
  ["\"timestamp\":" ++ demoQuote e.Timestamp,
   "\"task_id\":" ++ demoQuote e.TaskID,
   "\"workspace_id\":" ++ demoQuote e.WorkspaceID,
   "\"actor\":" ++ demoQuote e.Actor,
   "\"event_type\":" ++ demoQuote e.EventType]
  ++ (if e.Message = "" then [] else ["\"message\":" ++ demoQuote e.Message])
  ++ (if e.ToolName = "" then [] else ["\"tool_name\":" ++ demoQuote e.ToolName])
  ++ (if e.ArgsHash = "" then [] else ["\"args_hash\":" ++ demoQuote e.ArgsHash])
  ++ (if e.StdoutHash = "" then [] else ["\"stdout_hash\":" ++ demoQuote e.StdoutHash])
  ++ (if e.StderrHash = "" then [] else ["\"stderr_hash\":" ++ demoQuote e.StderrHash])
  ++ (match e.ExitCode with
      | none => []
      | some c => ["\"exit_code\":" ++ toString c])
  ++ (if e.DiffHash = "" then [] else ["\"diff_hash\":" ++ demoQuote e.DiffHash])
  ++ (if e.PolicyVersion = "" then [] else ["\"policy_version\":" ++ demoQuote e.PolicyVersion])
  ++ (if e.PrevEventHash = "" then [] else ["\"prev_event_hash\":" ++ demoQuote e.PrevEventHash])

/-- The JSON text of an event: the members, a comma after each, then `event_hash`. -/
def demoText (e : Event) : List Char :=
  '\x7b' :: ((demoMembers e).flatMap fun m => m.data ++ [',']) ++ "\"event_hash\":\"".data
    ++ e.EventHash.data ++ ['"', '\x7d']

/-- A character that `json.Marshal` copies into a string as it is and that
takes one byte. -/
def demoPlain (c : Char) : Bool :=
  32 ≤ c.toNat && c.toNat < 127 && c != '"' && c != '\\' && c != '<' && c != '>' && c != '&'

/-- A printable ASCII character. -/
def demoPrintable (c : Char) : Bool :=
  32 ≤ c.toNat && c.toNat < 127

/-- Whether the serialization of the event needs no escaping: every string field
is made of plain characters and so is the text but for its quotes. -/
def demoSafe (e : Event) : Bool :=
  [e.Timestamp, e.TaskID, e.WorkspaceID, e.Actor, e.EventType, e.Message, e.ToolName,
    e.ArgsHash, e.StdoutHash, e.StderrHash, e.DiffHash, e.PolicyVersion, e.PrevEventHash,
    e.EventHash].all (fun s => s.data.all demoPlain)
  && (demoText e).all demoPrintable

/-- The line for an event whose strings need no escaping; an error for the others. -/
def demoMarshal (e : Event) : Except String Bytes :=
  if demoSafe e then .ok ((demoText e).map fun c => UInt8.ofNat c.toNat)
  else .error "demo: a string needs escaping"

/-- The characters of a one-byte-per-character line. -/
def demoChars (line : Bytes) : List Char :=
  line.map fun b => Char.ofNat b.toNat

/-- Reads back the last member of a line written by `demoMarshal`, the
`event_hash`; a line that does not end that member and the object is rejected. -/
def demoUnmarshal (line : Bytes) : Except String Event :=
  match (demoChars line).reverse with
  | '\x7d' :: '"' :: rest =>
    if ((rest.dropWhile fun c => c != '"').drop 1).take 13 = "\"event_hash\":".data.reverse then
      .ok { EventHash := String.mk (rest.takeWhile fun c => c != '"').reverse }
    else .error "invalid character"
  | _ => .error "unexpected end of JSON input"

/-- A 32-byte checksum in the place of SHA-256: the length of the input and the
sum of its bytes, then zeros. -/
def demoSum (b : Bytes) : Array32 :=
  ⟨[UInt8.ofNat b.length, UInt8.ofNat (b.map UInt8.toNat).sum] ++ List.replicate 30 0, by simp⟩

/-- An instance of `Lib` on which the definitions can be run.  It is used below
where it agrees with the Go library: on events whose strings need no escaping,
on the lines written for them, on a line cut before its closing brace, and on
clean absolute paths, which `filepath.Abs` returns unchanged. -/
def demoLib : Lib where
  jsonMarshal := demoMarshal
  jsonUnmarshal := demoUnmarshal
  sha256Sum := demoSum
  filepathAbs := fun p => .ok p

/-- A ledger file cut in the middle of its only line. -/
def cutFile : Files :=
  fun p => if p = "ledger.jsonl" then some (bytesOfString "\x7b\"timestamp\":\"2026") else none

/-! ## Sessions and chains -/

/-- A session on one ledger: the events are appended in turn, each with the
answers of the operating system for that call, until one append fails.  The
Boolean tells whether every append succeeded. -/
def appendSeq (lib : Lib) : Files → Ledger → List (AppendEnv × Event) → Files × Ledger × Bool
  | fs, l, [] => (fs, l, true)
  | fs, l, (os, e) :: rest =>
    match Append lib os fs l e with
    | (fs1, l1, none) => appendSeq lib fs1 l1 rest
    | (fs1, l1, some _) => (fs1, l1, false)

/-- The three fields of an event that `Append` overwrites, set to the empty string. -/
def Event.blank (e : Event) : Event :=
  { e with Timestamp := "", PrevEventHash := "", EventHash := "" }

/-- The written event `w` is the input `x.2` stamped by `Append`: every other
field is the input's, the timestamp is the clock's, and `EventHash` is the hex
SHA-256 of the serialization of `w` with `EventHash` set to the empty string. -/
def Stamped (lib : Lib) (x : AppendEnv × Event) (w : Event) : Prop :=
  w.blank = x.2.blank ∧ w.Timestamp = x.1.now ∧
  ∃ b, lib.jsonMarshal { w with EventHash := "" } = .ok b ∧
    w.EventHash = hexEncodeToString (lib.sha256Sum b).val

/-- The events form a chain that continues from the hash `prev`. -/
def Linked : String → List Event → Prop
  | _, [] => True
  | prev, w :: ws => w.PrevEventHash = prev ∧ Linked w.EventHash ws

/-- The hash of the last event of a chain that continues from `prev`. -/
def lastHash : String → List Event → String
  | prev, [] => prev
  | _, w :: ws => lastHash w.EventHash ws

/-- The content of a file made of the given lines, each ended by a newline. -/
def joinLines (lines : List Bytes) : Bytes :=
  lines.flatMap fun ln => ln ++ [10]

/-- Two events appended in one session, with the clock readings of the two calls;
the second input carries stale hash fields. -/
def twoSteps : List (AppendEnv × Event) :=
  [({ now := "2026-01-01T00:00:00Z" },
      { Actor := "Jarvis", EventType := "STATE", Message := "INTAKE" }),
   ({ now := "2026-01-01T00:00:01Z" },
      { Actor := "Jarvis", EventType := "STATE", Message := "EXECUTE",
        Timestamp := "stale", PrevEventHash := "stale", EventHash := "stale" })]

/-- No file anywhere. -/
def noFiles : Files := fun _ => none

theorem ensureInScope_eq_none_iff (lib : Lib) (ws : Workspace) (p : String) :
    ensureInScope lib ws p = none ↔
      ∃ abs, lib.filepathAbs p = .ok abs ∧
        (abs = ws.AllowedRoot ∨
          HasPrefix abs (ws.AllowedRoot ++ String.singleton PathSeparator) = true) := by
  unfold ensureInScope
  cases h : lib.filepathAbs p with
  | error err => simp
  | ok abs =>
    by_cases h1 : abs = ws.AllowedRoot
    · simp [h1]
    · by_cases h2 : HasPrefix abs (ws.AllowedRoot ++ String.singleton PathSeparator) = true
      · simp [h1, h2]
      · simp [h1, h2]

/-- Where C4 holds: a resolved path equal to `AllowedRoot`, or `AllowedRoot`
followed by the separator and anything, is accepted. -/
theorem ensureInScope_accepts (lib : Lib) (ws : Workspace) (p abs : String)
    (habs : lib.filepathAbs p = .ok abs)
    (h : abs = ws.AllowedRoot ∨
      ∃ rest, abs = ws.AllowedRoot ++ String.singleton PathSeparator ++ rest) :
    ensureInScope lib ws p = none := by
  rw [ensureInScope_eq_none_iff]
  refine ⟨abs, habs, ?_⟩
  rcases h with h | ⟨rest, h⟩
  · exact Or.inl h
  · right
    rw [h]
    simp [HasPrefix, String.data_append]

/-! ## Tool events carry digests only -/

/-- C1 does not hold. The ledger file holds one line, cut before the end of the
JSON object: the scanner returns it as the last line, it is not empty and it
does not parse, and yet `New` returns a ledger with an empty `prevEventHash`
and no error. -/
theorem C1_unparsable_last_line_accepted :
    scanLoop [] [] (bytesOfString "\x7b\"timestamp\":\"2026")
      = .ok (bytesOfString "\x7b\"timestamp\":\"2026") ∧
    bytesOfString "\x7b\"timestamp\":\"2026" ≠ [] ∧
    demoLib.jsonUnmarshal (bytesOfString "\x7b\"timestamp\":\"2026")
      = .error "unexpected end of JSON input" ∧
    New demoLib {} cutFile "ledger.jsonl"
      = .ok { path := "ledger.jsonl", prevEventHash := "" } := by
  decide

/-- C1 as amended. The ledger `l` has any `prevEventHash`. When its file
exists, can be opened and is read without a read error, the scanner reaches the
end of the file without error and the last line it yields is not empty and does
not parse as an event, `loadPrevHash` returns the parse error, wrapped as
"ledger last line parse failed: ...", and leaves the ledger as it was. `New`
discards that error: on the same file it returns a ledger with an empty
`prevEventHash` and no error whenever the directory can be created; and on any
file at all, `New` returns an error only when the directory cannot be created,
and then that error. -/
theorem C1_parse_error_discarded (lib : Lib) (os : OpenEnv) (fs : Files) (l : Ledger)
    (data lastLine : Bytes) (err : String)
    (hopen : os.openErr = none) (hread : os.readErr = none)
    (hfile : fs l.path = some data)
    (hscan : scanLoop [] [] data = .ok lastLine)
    (hnonempty : lastLine ≠ [])
    (hparse : lib.jsonUnmarshal lastLine = .error err) :
    loadPrevHash lib os fs l = (l, some ("ledger last line parse failed: " ++ err)) ∧
    (os.mkdirErr = none →
      New lib os fs l.path = .ok { path := l.path, prevEventHash := "" }) ∧
    (∀ (fs2 : Files) (path2 : String) (x : String),
      New lib os fs2 path2 = .error x ↔ os.mkdirErr = some x) := by
  have h : ∀ k : Ledger, k.path = l.path →
      loadPrevHash lib os fs k = (k, some ("ledger last line parse failed: " ++ err)) := by
    intro k hk
    simp [loadPrevHash, hopen, hread, hk, hfile, hscan, hnonempty, hparse]
  refine ⟨h l rfl, fun hm => ?_, fun fs2 path2 x => ?_⟩
  · simp [New, hm, h { path := l.path, prevEventHash := "" } rfl]
  · cases hm : os.mkdirErr <;> simp [New, hm]

/-- Witness of the amended C1 on the cut file, for a ledger whose
`prevEventHash` is "old". -/
theorem C1_parse_error_discarded_witness :
    loadPrevHash demoLib {} cutFile { path := "ledger.jsonl", prevEventHash := "old" }
      = ({ path := "ledger.jsonl", prevEventHash := "old" },
          some ("ledger last line parse failed: " ++ "unexpected end of JSON input")) ∧
    New demoLib {} cutFile "ledger.jsonl"
      = .ok { path := "ledger.jsonl", prevEventHash := "" } :=
  have h := C1_parse_error_discarded demoLib {} cutFile
    { path := "ledger.jsonl", prevEventHash := "old" }
    (bytesOfString "\x7b\"timestamp\":\"2026") (bytesOfString "\x7b\"timestamp\":\"2026")
    "unexpected end of JSON input" rfl rfl (by decide) (by decide) (by decide) (by decide)
  ⟨h.1, h.2.1 rfl⟩

/-! ## Appending -/

theorem Append_blank (lib : Lib) (os : AppendEnv) (fs : Files) (l : Ledger) (e : Event) :
    Append lib os fs l e.blank = Append lib os fs l e := rfl

theorem writeAtEnd_writeAtEnd (fs : Files) (path : String) (a b : Bytes) :
    writeAtEnd (writeAtEnd fs path a) path b = writeAtEnd fs path (a ++ b) := by
  funext p
  by_cases h : p = path <;> simp [writeAtEnd, h]

/-- What a successful `Append` did. -/
theorem Append_ok (lib : Lib) (os : AppendEnv) (fs : Files) (l : Ledger) (e : Event)
    (h : (Append lib os fs l e).2.2 = none) :
    ∃ w line, Stamped lib (os, e) w ∧ w.PrevEventHash = l.prevEventHash ∧
      lib.jsonMarshal w = .ok line ∧
      Append lib os fs l e
        = (writeAtEnd fs l.path (line ++ [10]), { l with prevEventHash := w.EventHash }, none) := by
  unfold Append at h ⊢
  simp only at h ⊢
  cases hb : lib.jsonMarshal
      { e with Timestamp := os.now, PrevEventHash := l.prevEventHash, EventHash := "" } with
  | error err => simp [hb] at h
  | ok b =>
    simp only [hb] at h ⊢
    cases ho : os.openErr with
    | some err => simp [ho] at h
    | none =>
      simp only [ho] at h ⊢
      cases hl : lib.jsonMarshal
          { e with Timestamp := os.now, PrevEventHash := l.prevEventHash,
                   EventHash := hexEncodeToString (lib.sha256Sum b).val } with
      | error err => simp [hl] at h
      | ok line =>
        simp only [hl] at h ⊢
        cases hw : os.writeErr with
        | some x => simp [hw] at h
        | none =>
          refine ⟨{ e with Timestamp := os.now, PrevEventHash := l.prevEventHash,
                           EventHash := hexEncodeToString (lib.sha256Sum b).val },
            line, ⟨rfl, rfl, b, hb, rfl⟩, rfl, hl, ?_⟩
          simp [writeAtEnd_writeAtEnd]

theorem appendSeq_congr (lib : Lib) :
    ∀ (steps steps1 : List (AppendEnv × Event)) (fs : Files) (l : Ledger),
      steps1.map (fun x => (x.1, x.2.blank)) = steps.map (fun x => (x.1, x.2.blank)) →
      appendSeq lib fs l steps1 = appendSeq lib fs l steps := by
  intro steps
  induction steps with
  | nil =>
    intro steps1 fs l h
    cases steps1 with
    | nil => rfl
    | cons x t => simp at h
  | cons x rest ih =>
    intro steps1 fs l h
    cases steps1 with
    | nil => simp at h
    | cons y t =>
      obtain ⟨o1, e1⟩ := x
      obtain ⟨o2, e2⟩ := y
      simp only [List.map_cons, List.cons.injEq, Prod.mk.injEq] at h
      obtain ⟨⟨ho, he⟩, ht⟩ := h
      subst ho
      have hA : Append lib o2 fs l e2 = Append lib o2 fs l e1 := by
        rw [← Append_blank lib o2 fs l e2, ← Append_blank lib o2 fs l e1, he]
      simp only [appendSeq, hA]
      split
      · exact ih t _ _ ht
      · rfl

theorem Linked_index :
    ∀ (ws : List Event) (prev : String), Linked prev ws →
      ∀ (i : Nat) (a b : Event), ws[i]? = some a → ws[i + 1]? = some b →
        b.PrevEventHash = a.EventHash := by
  intro ws
  induction ws with
  | nil => intro prev _ i a b ha; simp at ha
  | cons w t ih =>
    intro prev h i a b ha hb
    cases i with
    | zero =>
      simp only [List.getElem?_cons_zero, Option.some.injEq] at ha
      subst ha
      cases t with
      | nil => simp at hb
      | cons w2 t2 =>
        simp only [zero_add, List.getElem?_cons_succ, List.getElem?_cons_zero,
          Option.some.injEq] at hb
        subst hb
        exact h.2.1
    | succ j =>
      simp only [List.getElem?_cons_succ] at ha hb
      exact ih _ h.2 j a b ha hb

/-- What a session in which every append succeeded did. -/
theorem appendSeq_spec (lib : Lib) :
    ∀ (steps : List (AppendEnv × Event)) (fs : Files) (l : Ledger),
      (appendSeq lib fs l steps).2.2 = true →
      ∃ (written : List Event) (lines : List Bytes),
        List.Forall₂ (Stamped lib) steps written ∧
        List.Forall₂ (fun w ln => lib.jsonMarshal w = .ok ln) written lines ∧
        Linked l.prevEventHash written ∧
        (appendSeq lib fs l steps).2.1
          = { l with prevEventHash := lastHash l.prevEventHash written } ∧
        (∀ p, p ≠ l.path → (appendSeq lib fs l steps).1 p = fs p) ∧
        ((appendSeq lib fs l steps).1 l.path).getD []
          = (fs l.path).getD [] ++ joinLines lines ∧
        (steps ≠ [] → (appendSeq lib fs l steps).1 l.path
          = some ((fs l.path).getD [] ++ joinLines lines)) := by
  intro steps
  induction steps with
  | nil =>
    intro fs l _
    exact ⟨[], [], List.Forall₂.nil, List.Forall₂.nil, trivial, rfl, fun _ _ => rfl,
      by simp [appendSeq, joinLines], fun h => absurd rfl h⟩
  | cons x rest ih =>
    intro fs l h
    obtain ⟨os, e⟩ := x
    cases hA : (Append lib os fs l e).2.2 with
    | some err =>
      have : Append lib os fs l e
          = ((Append lib os fs l e).1, (Append lib os fs l e).2.1, some err) := by
        rw [← hA]
      simp only [appendSeq] at h
      rw [this] at h
      simp at h
    | none =>
      obtain ⟨w, line, hst, hprev, hline, hEq⟩ := Append_ok lib os fs l e hA
      have hstep : appendSeq lib fs l ((os, e) :: rest)
          = appendSeq lib (writeAtEnd fs l.path (line ++ [10]))
              { l with prevEventHash := w.EventHash } rest := by
        simp only [appendSeq, hEq]
      rw [hstep] at h ⊢
      obtain ⟨ws, lns, h1, h2, h3, h4, h5, h6, h7⟩ := ih _ _ h
      refine ⟨w :: ws, line :: lns, List.Forall₂.cons hst h1, List.Forall₂.cons hline h2,
        ⟨hprev, h3⟩, ?_, ?_, ?_, ?_⟩
      · rw [h4]; rfl
      · intro p hp
        rw [h5 p hp]
        simp [writeAtEnd, hp]
      · rw [h6]
        simp [writeAtEnd, joinLines]
      · intro _
        have hx := h6
        simp only [writeAtEnd, if_true, Option.getD_some] at hx
        cases hrest : rest with
        | nil =>
          subst hrest
          cases h1
          cases h2
          simp [appendSeq, writeAtEnd, joinLines]
        | cons y t =>
          have hne : rest ≠ [] := by rw [hrest]; simp
          rw [← hrest]
          have h8 := h7 hne
          simp only at h8
          rw [h8]
          simp [writeAtEnd, joinLines]

theorem forall₂_right_mem {α β : Type} {R : α → β → Prop} {xs : List α} {ys : List β}
    (h : List.Forall₂ R xs ys) : ∀ y ∈ ys, ∃ x ∈ xs, R x y := by
  induction h with
  | nil => intro y hy; simp at hy
  | cons hr _ ih =>
    intro y hy
    rcases List.mem_cons.mp hy with rfl | hy
    · exact ⟨_, List.mem_cons_self _ _, hr⟩
    · obtain ⟨x, hx, hxy⟩ := ih y hy
      exact ⟨x, List.mem_cons_of_mem _ hx, hxy⟩

theorem loadPrevHash_absent (lib : Lib) (os : OpenEnv) (fs : Files) (l : Ledger)
    (h : fs l.path = none) : loadPrevHash lib os fs l = (l, none) := by
  unfold loadPrevHash
  cases os.openErr <;> simp [h]

theorem New_absent (lib : Lib) (os : OpenEnv) (fs : Files) (path : String) (l : Ledger)
    (h : fs path = none) (hnew : New lib os fs path = .ok l) :
    l = { path := path, prevEventHash := "" } := by
  unfold New at hnew
  cases hm : os.mkdirErr with
  | some err => simp [hm] at hnew
  | none =>
    simp only [hm, Except.ok.injEq] at hnew
    rw [loadPrevHash_absent lib os fs _ h] at hnew
    exact hnew.symm

/-- C2. A session of N successful appends on a fresh ledger (no file at the
path) leaves a file made of N lines, the serializations of N events `written`,
where `written[i]` is the i-th input stamped by `Append`; the first has an empty
`PrevEventHash`; each next one has the `EventHash` of the one before as its
`PrevEventHash`; the `EventHash` of each is the hex SHA-256 of its serialization
with `EventHash` set to the empty string; and inputs that differ only in
`Timestamp`, `PrevEventHash` and `EventHash` give the same session. -/
theorem C2_chain_integrity (lib : Lib) (os : OpenEnv) (fs : Files) (path : String)
    (l0 : Ledger) (steps : List (AppendEnv × Event))
    (hfresh : fs path = none)
    (hnew : New lib os fs path = .ok l0)
    (hok : (appendSeq lib fs l0 steps).2.2 = true) :
    ∃ (written : List Event) (lines : List Bytes),
      written.length = steps.length ∧ lines.length = steps.length ∧
      List.Forall₂ (Stamped lib) steps written ∧
      List.Forall₂ (fun w ln => lib.jsonMarshal w = .ok ln) written lines ∧
      ((appendSeq lib fs l0 steps).1 path).getD [] = joinLines lines ∧
      (∀ w, written[0]? = some w → w.PrevEventHash = "") ∧
      (∀ (i : Nat) (a b : Event), written[i]? = some a → written[i + 1]? = some b →
        b.PrevEventHash = a.EventHash) ∧
      (∀ w ∈ written, ∃ b, lib.jsonMarshal { w with EventHash := "" } = .ok b ∧
        w.EventHash = hexEncodeToString (lib.sha256Sum b).val) ∧
      ∀ steps1 : List (AppendEnv × Event),
        steps1.map (fun x => (x.1, x.2.blank)) = steps.map (fun x => (x.1, x.2.blank)) →
        appendSeq lib fs l0 steps1 = appendSeq lib fs l0 steps := by
  have hl0 := New_absent lib os fs path l0 hfresh hnew
  subst hl0
  obtain ⟨written, lines, h1, h2, h3, _, _, h6, _⟩ := appendSeq_spec lib steps fs _ hok
  refine ⟨written, lines, h1.length_eq.symm, ?_, h1, h2, ?_, ?_, Linked_index written _ h3, ?_,
    fun steps1 h => appendSeq_congr lib steps steps1 fs _ h⟩
  · rw [← h2.length_eq, h1.length_eq]
  · simpa [hfresh] using h6
  · intro w hw
    cases written with
    | nil => simp at hw
    | cons a t =>
      simp only [List.getElem?_cons_zero, Option.some.injEq] at hw
      subst hw
      exact h3.1
  · intro w hw
    obtain ⟨x, _, hx⟩ := forall₂_right_mem h1 w hw
    exact hx.2.2

set_option maxRecDepth 100000 in
/-- Witness of C2: two appends on a fresh ledger. -/
theorem C2_chain_integrity_witness :
    ∃ (written : List Event) (lines : List Bytes),
      written.length = twoSteps.length ∧ lines.length = twoSteps.length ∧
      List.Forall₂ (Stamped demoLib) twoSteps written ∧
      List.Forall₂ (fun w ln => demoLib.jsonMarshal w = .ok ln) written lines ∧
      ((appendSeq demoLib noFiles { path := "ledger.jsonl", prevEventHash := "" }
          twoSteps).1 "ledger.jsonl").getD [] = joinLines lines ∧
      (∀ w, written[0]? = some w → w.PrevEventHash = "") ∧
      (∀ (i : Nat) (a b : Event), written[i]? = some a → written[i + 1]? = some b →
        b.PrevEventHash = a.EventHash) ∧
      (∀ w ∈ written, ∃ b, demoLib.jsonMarshal { w with EventHash := "" } = .ok b ∧
        w.EventHash = hexEncodeToString (demoLib.sha256Sum b).val) ∧
      ∀ steps1 : List (AppendEnv × Event),
        steps1.map (fun x => (x.1, x.2.blank)) = twoSteps.map (fun x => (x.1, x.2.blank)) →
        appendSeq demoLib noFiles { path := "ledger.jsonl", prevEventHash := "" } steps1
          = appendSeq demoLib noFiles { path := "ledger.jsonl", prevEventHash := "" } twoSteps :=
  C2_chain_integrity demoLib {} noFiles "ledger.jsonl"
    { path := "ledger.jsonl", prevEventHash := "" } twoSteps rfl rfl (by decide)

/-! ## The line scanner -/

end Jarvis
